import Mathlib

/-!
Verification of the CSV-to-backup transformation pipeline of
`pkg/ccl/sqlccl/csv.go`.

The Go source is shallowly embedded: channels become lists of the values
that travel on them, the spill-to-disk multi-map becomes a stable sort of
the collected key/value pairs, and fallible Go functions returning
`(T, error)` become `Except ImportError T`.  External engine primitives
(the RocksDB SST builder, SHA-512, the SQL descriptor builder) are not in
the sources under verification; they are modelled from the specification
where noted, and checksum computation is kept abstract as a function
parameter.
-/

namespace CsvImport

/-- A roachpb key: a byte string.  Bytes are modelled as naturals; no
arithmetic on them occurs in the code under verification. -/
abbrev Key := List Nat

/-- A raw value byte string. -/
abbrev Value := List Nat

/-- Lexicographic byte-string comparison (`bytes.Compare(a, b) <= 0`),
the iteration order of the RocksDB multi-map. -/
def keyLE : Key → Key → Bool
  | [], _ => true
  | _ :: _, [] => false
  | a :: as, b :: bs => if a < b then true else if b < a then false else keyLE as bs

/-- Strict lexicographic byte-string comparison (`bytes.Compare(a, b) < 0`). -/
def keyLT (a b : Key) : Bool :=
  keyLE a b && !keyLE b a

theorem keyLE_refl (a : Key) : keyLE a a = true := by
  induction a with
  | nil => rfl
  | cons x xs ih => simp [keyLE, ih]

theorem keyLE_total (a b : Key) : keyLE a b = true ∨ keyLE b a = true := by
  induction a generalizing b with
  | nil => left; rfl
  | cons x xs ih =>
    cases b with
    | nil => right; rfl
    | cons y ys =>
      rcases Nat.lt_trichotomy x y with h | h | h
      · left; simp [keyLE, h]
      · subst h
        rcases ih ys with h2 | h2
        · left; simp [keyLE, h2]
        · right; simp [keyLE, h2]
      · right; simp [keyLE, h]

theorem keyLE_antisymm {a b : Key} (hab : keyLE a b = true) (hba : keyLE b a = true) :
    a = b := by
  induction a generalizing b with
  | nil =>
    cases b with
    | nil => rfl
    | cons y ys => simp [keyLE] at hba
  | cons x xs ih =>
    cases b with
    | nil => simp [keyLE] at hab
    | cons y ys =>
      rcases Nat.lt_trichotomy x y with h | h | h
      · simp [keyLE, h, Nat.not_lt.mpr (Nat.le_of_lt h), Nat.lt_asymm h] at hba
      · subst h
        simp only [keyLE, Nat.lt_irrefl, if_false] at hab hba
        rw [ih hab hba]
      · simp [keyLE, h, Nat.not_lt.mpr (Nat.le_of_lt h), Nat.lt_asymm h] at hab

theorem keyLE_trans {a b c : Key} (hab : keyLE a b = true) (hbc : keyLE b c = true) :
    keyLE a c = true := by
  induction a generalizing b c with
  | nil => rfl
  | cons x xs ih =>
    cases b with
    | nil => simp [keyLE] at hab
    | cons y ys =>
      cases c with
      | nil => simp [keyLE] at hbc
      | cons z zs =>
        simp only [keyLE] at hab hbc ⊢
        rcases Nat.lt_trichotomy x y with hxy | hxy | hxy
        · rcases Nat.lt_trichotomy y z with hyz | hyz | hyz
          · simp [Nat.lt_trans hxy hyz]
          · subst hyz; simp [hxy]
          · simp [hyz, Nat.not_lt.mpr (Nat.le_of_lt hyz), Nat.lt_asymm hyz] at hbc
        · subst hxy
          simp only [Nat.lt_irrefl, if_false] at hab
          rcases Nat.lt_trichotomy x z with hyz | hyz | hyz
          · simp [hyz]
          · subst hyz
            simp only [Nat.lt_irrefl, if_false] at hbc ⊢
            exact ih hab hbc
          · simp [hyz, Nat.not_lt.mpr (Nat.le_of_lt hyz), Nat.lt_asymm hyz] at hbc
        · simp [hxy, Nat.not_lt.mpr (Nat.le_of_lt hxy), Nat.lt_asymm hxy] at hab

theorem keyLT_irrefl (a : Key) : keyLT a a = false := by
  simp [keyLT, keyLE_refl]

theorem keyLT_ne {a b : Key} (h : keyLT a b = true) : a ≠ b := by
  intro he
  subst he
  rw [keyLT_irrefl] at h
  exact Bool.false_ne_true h

theorem keyLE_of_not_keyLT {a b : Key} (h : ¬ keyLT a b = true) (hle : keyLE a b = true) :
    a = b := by
  simp only [keyLT, Bool.and_eq_true, Bool.not_eq_true'] at h
  rcases Bool.eq_false_or_eq_true (keyLE b a) with hba | hba
  · exact keyLE_antisymm hle hba
  · exact absurd ⟨hle, hba⟩ h

/-- Rendering of a key for error messages (Go formats a `roachpb.Key`
with `%s`; the exact pretty-printing is immaterial, only that the key
appears in the message). -/
def keyStr (k : Key) : String := toString k

/-- The errors the embedded pipeline functions can return.  Each
constructor corresponds to one `errors.New` / `errors.Errorf` /
`errors.Wrapf` site of `csv.go`. -/
inductive ImportError where
  /-- `duplicate key: %s` (writeRocksDB line 533). -/
  | duplicateKey (k : Key)
  /-- `errSSTCreationMaybeDuplicateTemplate` wrap of an `sst.Add` failure
  (writeRocksDB line 542). -/
  | sstAdd (k : Key)
  /-- `row %d: expected %d fields, got %d` (readCSV line 350). -/
  | expectedFields (row expected got : Nat)
  /-- `no files in backup` (finalizeCSVBackup line 626). -/
  | noFiles
  /-- `unsupported IF NOT EXISTS` (makeCSVTableDescriptor line 247). -/
  | unsupportedIfNotExists
  /-- `interleaved not supported` (makeCSVTableDescriptor line 250). -/
  | interleavedNotSupported
  /-- `CREATE AS not supported` (makeCSVTableDescriptor line 253). -/
  | createAsNotSupported
  /-- `column %q: DEFAULT expression unsupported` (makeCSVTableDescriptor
  line 277). -/
  | defaultUnsupported (colName : String)
  /-- `errors.Wrap(err, dataFile)` — per-file wrapping in readCSV
  (line 367). -/
  | wrapped (file : String) (e : ImportError)
deriving DecidableEq, Repr

/-- The message string carried by each error, after Go's `fmt` verbs are
expanded. -/
def errMsg : ImportError → String
  | .duplicateKey k => "duplicate key: " ++ keyStr k
  | .sstAdd k =>
      "SST creation error at " ++ keyStr k ++
      "; this can happen when a primary or unique index has duplicate keys"
  | .expectedFields row expected got =>
      "row " ++ toString row ++ ": expected " ++ toString expected ++
      " fields, got " ++ toString got
  | .noFiles => "no files in backup"
  | .unsupportedIfNotExists => "unsupported IF NOT EXISTS"
  | .interleavedNotSupported => "interleaved not supported"
  | .createAsNotSupported => "CREATE AS not supported"
  | .defaultUnsupported colName =>
      "column \x22" ++ colName ++ "\x22: DEFAULT expression unsupported"
  | .wrapped file e => file ++ ": " ++ errMsg e

/-- `containsStr needle hay`: the character sequence of `needle` occurs
contiguously inside `hay`. -/
def containsStr (needle hay : String) : Prop :=
  ∃ a b, hay.data = a ++ needle.data ++ b

theorem string_data_append (s t : String) : (s ++ t).data = s.data ++ t.data := by
  cases s
  cases t
  rfl

theorem containsStr_append_left (needle s t : String)
    (h : containsStr needle s) : containsStr needle (s ++ t) := by
  obtain ⟨a, b, hab⟩ := h
  exact ⟨a, b ++ t.data, by rw [string_data_append, hab]; simp⟩

theorem containsStr_append_right (needle s t : String)
    (h : containsStr needle t) : containsStr needle (s ++ t) := by
  obtain ⟨a, b, hab⟩ := h
  exact ⟨s.data ++ a, b, by rw [string_data_append, hab]; simp⟩

theorem containsStr_self (s : String) : containsStr s s := ⟨[], [], by simp⟩

/-- The `duplicate key` error message mentions `duplicate`. -/
theorem duplicate_in_duplicateKey (k : Key) :
    containsStr "duplicate" (errMsg (.duplicateKey k)) := by
  refine ⟨[], (" key: " ++ keyStr k).data, ?_⟩
  show ("duplicate key: " ++ keyStr k).data = _
  rw [string_data_append, string_data_append]
  rfl

/-- The SST-creation error message mentions `duplicate`. -/
theorem duplicate_in_sstAdd (k : Key) :
    containsStr "duplicate" (errMsg (.sstAdd k)) := by
  refine ⟨("SST creation error at " ++ keyStr k ++
      "; this can happen when a primary or unique index has ").data,
      " keys".data, ?_⟩
  show ("SST creation error at " ++ keyStr k ++
      "; this can happen when a primary or unique index has duplicate keys").data = _
  simp only [string_data_append]
  simp

theorem keyStr_in_duplicateKey (k : Key) :
    containsStr (keyStr k) (errMsg (.duplicateKey k)) :=
  containsStr_append_right _ _ _ (containsStr_self _)

theorem keyStr_in_sstAdd (k : Key) :
    containsStr (keyStr k) (errMsg (.sstAdd k)) := by
  show containsStr (keyStr k) ("SST creation error at " ++ keyStr k ++ _)
  exact containsStr_append_left _ _ _
    (containsStr_append_right _ _ _ (containsStr_self _))

/-- A `roachpb.KeyValue` as it travels on `kvCh`: the on-disk multi-map
of `writeRocksDB` preserves only these key and value bytes
(`writer.Put(kv.Key, kv.Value.RawBytes)`). -/
structure KV where
  key : Key
  value : Value
deriving DecidableEq, Repr

/-- An `engine.MVCCKeyValue` handed to the SST builder: key bytes, the
MVCC wall-time stamp, and value bytes. -/
structure MVCCKeyValue where
  key : Key
  ts : Int
  value : Value
deriving DecidableEq, Repr

/-- MVCC key ordering: ascending key bytes, descending timestamp within
one key.  The RocksDB SST builder requires strictly ascending MVCC keys. -/
def mvccLT (a b : MVCCKeyValue) : Bool :=
  keyLT a.key b.key || (a.key = b.key && b.ts < a.ts)

/-- Modelled from the spec: the byte size the SST builder accounts for
one added entry (key bytes, value bytes and the 8-byte wall-time stamp).
The engine's exact accounting is external; the claims depend only on the
running `DataSize` total that this induces. -/
def entrySize (e : MVCCKeyValue) : Int :=
  (e.key.length : Int) + e.value.length + 8

theorem entrySize_pos (e : MVCCKeyValue) : 0 < entrySize e := by
  have h1 : (0 : Int) ≤ e.key.length := Int.ofNat_nonneg _
  have h2 : (0 : Int) ≤ e.value.length := Int.ofNat_nonneg _
  unfold entrySize
  omega

/-- Modelled from the spec: the state of `engine.RocksDBSstFileWriter`
(external engine code) — the entries added so far, in order, and the
accumulated `DataSize`.  `Finish` returns the entries, `Add` appends an
entry and fails unless its MVCC key strictly exceeds the previous one. -/
structure SstBuilder where
  entries : List MVCCKeyValue
  dataSize : Int
deriving DecidableEq, Repr

/-- `sst.Add kv`: append an entry; error when the MVCC key does not
strictly exceed the last added one (the duplicate-prone failure that
`writeRocksDB` wraps with `errSSTCreationMaybeDuplicateTemplate`). -/
def SstBuilder.add (b : SstBuilder) (e : MVCCKeyValue) : Except ImportError SstBuilder :=
  match b.entries.getLast? with
  | none => .ok ⟨b.entries ++ [e], b.dataSize + entrySize e⟩
  | some last =>
      if mvccLT last e then .ok ⟨b.entries ++ [e], b.dataSize + entrySize e⟩
      else .error (.sstAdd e.key)

/-- A `roachpb.Span`. -/
structure Span where
  key : Key
  endKey : Key
deriving DecidableEq, Repr

/-- An `sstContent` value sent on `contentCh`: the finished SST blob
(modelled as its entry list), its byte size, and its key span. -/
structure SstContent where
  data : List MVCCKeyValue
  size : Int
  span : Span
deriving DecidableEq, Repr

/-- The parameters of one `writeRocksDB` run. -/
structure WParams where
  sstMaxSize : Int
  walltime : Int
deriving DecidableEq, Repr

/-- The loop state of the sorted-iteration phase of `writeRocksDB`:
the open SST builder, the current segment's first key (`nil` in Go when
no segment is open), the last key of the previously emitted segment
(Go starts it as a nil byte slice, which compares equal to the empty
key), the KV count, and the segments emitted on `contentCh` so far. -/
structure WState where
  builder : SstBuilder
  firstKey : Option Key
  lastKey : Key
  count : Nat
  segs : List SstContent
deriving DecidableEq, Repr

/-- The initial `writeRocksDB` loop state. -/
def initW : WState := ⟨⟨[], 0⟩, none, [], 0, []⟩

/-- The add-and-maybe-flush tail of one `writeRocksDB` loop iteration
(lines 537–556), with `fk` the current segment's first key: restamp the
KV with the pipeline wall-time, `sst.Add` it, and flush a segment when
`DataSize` exceeds `sstMaxSize` (saving `lastKey` and clearing
`firstKey`). -/
def writeAdd (p : WParams) (st : WState) (kv : KV) (fk : Key) :
    Except ImportError WState :=
  match st.builder.add ⟨kv.key, p.walltime, kv.value⟩ with
  | .error e => .error e
  | .ok b =>
    if b.dataSize > p.sstMaxSize then
      .ok { builder := ⟨[], 0⟩, firstKey := none, lastKey := kv.key,
            count := st.count + 1,
            segs := st.segs ++ [⟨b.entries, b.dataSize, ⟨fk, kv.key ++ [0]⟩⟩] }
    else
      .ok { builder := b, firstKey := some fk, lastKey := st.lastKey,
            count := st.count + 1, segs := st.segs }

/-- One iteration of the sorted-iteration loop of `writeRocksDB`
(lines 519–557): when no segment is open, record the current key as the
segment's first key and fail if it equals the previous segment's last
key; then add the KV. -/
def writeStep (p : WParams) (st : WState) (kv : KV) : Except ImportError WState :=
  match st.firstKey with
  | none =>
      if kv.key = st.lastKey then .error (.duplicateKey kv.key)
      else writeAdd p st kv kv.key
  | some fk => writeAdd p st kv fk

/-- The sorted-iteration loop of `writeRocksDB` over the multi-map's
sorted contents. -/
def writeLoop (p : WParams) (st : WState) : List KV → Except ImportError WState
  | [] => .ok st
  | kv :: rest =>
      match writeStep p st kv with
      | .error e => .error e
      | .ok st2 => writeLoop p st2 rest

/-- The final flush after the loop (lines 558–562): a non-empty builder
is emitted as one last segment whose end key is the last added key's
`Next()` (`k ++ [0]`). -/
def finalFlush (st : WState) : List SstContent :=
  if st.builder.dataSize > 0 then
    match st.firstKey, st.builder.entries.getLast? with
    | some fk, some le =>
        st.segs ++ [⟨st.builder.entries, st.builder.dataSize, ⟨fk, le.key ++ [0]⟩⟩]
    | _, _ => st.segs
  else st.segs

/-- The KV-ordering relation of the multi-map iteration. -/
def kvLE (a b : KV) : Prop := keyLE a.key b.key = true

instance : DecidableRel kvLE := fun a b => by
  unfold kvLE
  infer_instance

instance : IsTotal KV kvLE := ⟨fun a b => keyLE_total a.key b.key⟩

instance : IsTrans KV kvLE := ⟨fun _ _ _ => keyLE_trans⟩

/-- `writeRocksDB` (lines 467–564): collect all KVs from the channel into
the on-disk multi-map (which preserves only key and value bytes and
yields them again sorted by key bytes, duplicates preserved), then run
the segmenting iteration and the final flush.  Returns the emitted
segments (the traffic on `contentCh`) and the KV count. -/
def writeRocksDB (p : WParams) (kvs : List KV) :
    Except ImportError (List SstContent × Nat) :=
  let sorted := List.insertionSort kvLE kvs
  match writeLoop p initW sorted with
  | .error e => .error e
  | .ok st => .ok (finalFlush st, st.count)

/-- `keyLE` as a proposition, for `Pairwise`/`Chain'` statements. -/
def keyLEp (a b : Key) : Prop := keyLE a b = true

/-- `keyLT` as a proposition. -/
def keyLTp (a b : Key) : Prop := keyLT a b = true

instance : IsTrans Key keyLTp where
  trans a b c hab hbc := by
    unfold keyLTp keyLT at hab hbc ⊢
    simp only [Bool.and_eq_true, Bool.not_eq_true'] at hab hbc ⊢
    obtain ⟨hab1, hab2⟩ := hab
    obtain ⟨hbc1, hbc2⟩ := hbc
    refine ⟨keyLE_trans hab1 hbc1, ?_⟩
    by_cases hca : keyLE c a = true
    · exact absurd (keyLE_trans hbc1 hca) (by rw [hab2]; simp)
    · exact Bool.not_eq_true _ ▸ Bool.of_not_eq_true hca

theorem keyLTp_of_ne {a b : Key} (hle : keyLEp a b) (hne : a ≠ b) : keyLTp a b := by
  by_cases h : keyLT a b = true
  · exact h
  · exact absurd (keyLE_of_not_keyLT h hle) hne

theorem chain_keyLTp_of_sorted (l : List Key) :
    l.Pairwise keyLEp → l.Chain' (· ≠ ·) → l.Chain' keyLTp := by
  induction l with
  | nil => intro _ _; simp
  | cons a t ih =>
    intro hp hc
    cases t with
    | nil => simp
    | cons b t2 =>
      rw [List.chain'_cons] at hc ⊢
      exact ⟨keyLTp_of_ne (List.rel_of_pairwise_cons hp (List.mem_cons_self _ _)) hc.1,
        ih hp.of_cons hc.2⟩

/-- In a weakly sorted key list with no equal adjacent elements, all
elements are distinct. -/
theorem nodup_of_sorted_chain {l : List Key}
    (hp : l.Pairwise keyLEp) (hc : l.Chain' (· ≠ ·)) : l.Nodup :=
  (List.chain'_iff_pairwise.mp (chain_keyLTp_of_sorted l hp hc)).imp fun h => keyLT_ne h

/-- The key the next first-key check of `writeRocksDB` is compared
against: the last key added to the open builder, or — when no segment is
open — the last key of the previously flushed segment. -/
def lastSeenK (st : WState) : Key :=
  match st.builder.entries.getLast? with
  | some e => e.key
  | none => st.lastKey

/-- Shape of a well-formed emitted segment: non-empty, size equal to the
accumulated entry sizes, span start equal to the first entry's key, span
end equal to the last entry's key followed by a zero byte (`Key.Next`),
and every entry stamped with the pipeline wall-time. -/
def segGood (p : WParams) (seg : SstContent) : Prop :=
  seg.data ≠ [] ∧
  seg.size = (seg.data.map entrySize).sum ∧
  (seg.data.map MVCCKeyValue.key).head? = some seg.span.key ∧
  (∃ lk, (seg.data.map MVCCKeyValue.key).getLast? = some lk ∧
    seg.span.endKey = lk ++ [0]) ∧
  (∀ e ∈ seg.data, e.ts = p.walltime)

/-- Invariant of the `writeRocksDB` loop state. -/
structure WOk (p : WParams) (st : WState) : Prop where
  firstKey_none : st.firstKey = none ↔ st.builder.entries = []
  firstKey_head : ∀ fk, st.firstKey = some fk →
      (st.builder.entries.map MVCCKeyValue.key).head? = some fk
  size_eq : st.builder.dataSize = (st.builder.entries.map entrySize).sum
  ts_ok : ∀ e ∈ st.builder.entries, e.ts = p.walltime
  segs_ok : ∀ seg ∈ st.segs, segGood p seg ∧ seg.size > p.sstMaxSize

theorem initW_ok (p : WParams) : WOk p initW := by
  constructor <;> simp [initW]

theorem mvccLT_same_ts {a b : MVCCKeyValue} (h : a.ts = b.ts) :
    mvccLT a b = keyLT a.key b.key := by
  simp [mvccLT, h, lt_irrefl]

theorem add_ok_shape {b : SstBuilder} {e : MVCCKeyValue} {b2 : SstBuilder}
    (h : b.add e = .ok b2) :
    b2.entries = b.entries ++ [e] ∧ b2.dataSize = b.dataSize + entrySize e := by
  unfold SstBuilder.add at h
  split at h
  · cases h
    exact ⟨rfl, rfl⟩
  · split at h
    · cases h
      exact ⟨rfl, rfl⟩
    · cases h

theorem add_ok_lt {b : SstBuilder} {e : MVCCKeyValue} {b2 : SstBuilder} {last : MVCCKeyValue}
    (h : b.add e = .ok b2) (hl : b.entries.getLast? = some last) :
    mvccLT last e = true := by
  unfold SstBuilder.add at h
  split at h
  · rename_i hl2
    rw [hl2] at hl
    cases hl
  · rename_i last2 hl2
    rw [hl2] at hl
    cases hl
    split at h
    · assumption
    · cases h

theorem add_err_shape {b : SstBuilder} {e : MVCCKeyValue} {er : ImportError}
    (h : b.add e = .error er) :
    er = .sstAdd e.key ∧ ∃ last, b.entries.getLast? = some last ∧ mvccLT last e = false := by
  unfold SstBuilder.add at h
  split at h
  · cases h
  · rename_i last2 hl2
    split at h
    · cases h
    · rename_i hm
      cases h
      exact ⟨rfl, last2, hl2, Bool.of_not_eq_true hm⟩

theorem writeAdd_ok_cases {p : WParams} {st : WState} {kv : KV} {fk : Key} {st' : WState}
    (h : writeAdd p st kv fk = .ok st') :
    ∃ b, st.builder.add ⟨kv.key, p.walltime, kv.value⟩ = .ok b ∧
      ((b.dataSize > p.sstMaxSize ∧
        st' = ⟨⟨[], 0⟩, none, kv.key, st.count + 1,
          st.segs ++ [⟨b.entries, b.dataSize, ⟨fk, kv.key ++ [0]⟩⟩]⟩) ∨
       (¬ b.dataSize > p.sstMaxSize ∧
        st' = ⟨b, some fk, st.lastKey, st.count + 1, st.segs⟩)) := by
  unfold writeAdd at h
  split at h
  · cases h
  · rename_i b hb
    split at h
    · rename_i hsz
      cases h
      exact ⟨b, hb, Or.inl ⟨hsz, rfl⟩⟩
    · rename_i hsz
      cases h
      exact ⟨b, hb, Or.inr ⟨hsz, rfl⟩⟩

theorem writeAdd_err {p : WParams} {st : WState} {kv : KV} {fk : Key} {er : ImportError}
    (h : writeAdd p st kv fk = .error er) :
    st.builder.add ⟨kv.key, p.walltime, kv.value⟩ = .error er := by
  unfold writeAdd at h
  split at h
  · rename_i he
    cases h
    exact he
  · split at h <;> cases h

theorem writeAdd_ok_inv {p : WParams} {st : WState} {kv : KV} {fk : Key} {st' : WState}
    (inv : WOk p st)
    (hhead : (st.builder.entries.map MVCCKeyValue.key ++ [kv.key]).head? = some fk)
    (h : writeAdd p st kv fk = .ok st') : WOk p st' := by
  obtain ⟨b, hb, hcase⟩ := writeAdd_ok_cases h
  obtain ⟨hbe, hbs⟩ := add_ok_shape hb
  have hmap : b.entries.map MVCCKeyValue.key =
      st.builder.entries.map MVCCKeyValue.key ++ [kv.key] := by
    rw [hbe]; simp
  have hsum : b.dataSize = (b.entries.map entrySize).sum := by
    rw [hbs, hbe, inv.size_eq]; simp
  have hts : ∀ e ∈ b.entries, e.ts = p.walltime := by
    rw [hbe]
    intro e he
    rcases List.mem_append.mp he with he | he
    · exact inv.ts_ok e he
    · rw [List.mem_singleton.mp he]
  rcases hcase with ⟨hsz, hst⟩ | ⟨hsz, hst⟩
  · subst hst
    refine ⟨by simp, by simp, by simp, by simp, ?_⟩
    intro seg hseg
    rcases List.mem_append.mp hseg with hseg | hseg
    · exact inv.segs_ok seg hseg
    · rw [List.mem_singleton.mp hseg]
      refine ⟨⟨?_, hsum, ?_, ?_, hts⟩, hsz⟩
      · rw [hbe]; simp
      · show (b.entries.map MVCCKeyValue.key).head? = some fk
        rw [hmap, hhead]
      · exact ⟨kv.key, by rw [hmap]; exact List.getLast?_concat _, rfl⟩
  · subst hst
    refine ⟨?_, ?_, hsum, hts, fun seg hseg => inv.segs_ok seg hseg⟩
    · show (some fk = none) ↔ b.entries = []
      rw [hbe]
      simp
    · intro fk2 hfk2
      cases hfk2
      show (b.entries.map MVCCKeyValue.key).head? = some fk
      rw [hmap, hhead]

theorem writeStep_ok_inv {p : WParams} {st : WState} {kv : KV} {st' : WState}
    (inv : WOk p st) (h : writeStep p st kv = .ok st') : WOk p st' := by
  unfold writeStep at h
  split at h
  · rename_i hfk
    split at h
    · cases h
    · have hemp : st.builder.entries = [] := inv.firstKey_none.mp hfk
      refine writeAdd_ok_inv inv ?_ h
      rw [hemp]
      simp
  · rename_i fk hfk
    refine writeAdd_ok_inv inv ?_ h
    rw [List.head?_append, inv.firstKey_head fk hfk]
    rfl

theorem lastSeenK_flush {kv : KV} {cnt : Nat} {segs : List SstContent} :
    lastSeenK ⟨⟨[], 0⟩, none, kv.key, cnt, segs⟩ = kv.key := rfl

theorem lastSeenK_cont {b : SstBuilder} {fk : Key} {lk : Key} {cnt : Nat}
    {segs : List SstContent} {e : MVCCKeyValue} (h : b.entries.getLast? = some e) :
    lastSeenK ⟨b, some fk, lk, cnt, segs⟩ = e.key := by
  unfold lastSeenK
  rw [h]

/-- A successful loop iteration consumes a key different from the
last-seen one and makes the consumed key the new last-seen key. -/
theorem writeStep_ok_lastSeen {p : WParams} {st : WState} {kv : KV} {st' : WState}
    (inv : WOk p st) (h : writeStep p st kv = .ok st') :
    kv.key ≠ lastSeenK st ∧ lastSeenK st' = kv.key := by
  unfold writeStep at h
  have hnext : ∀ fk, writeAdd p st kv fk = .ok st' → lastSeenK st' = kv.key := by
    intro fk hadd
    obtain ⟨b, hb, hcase⟩ := writeAdd_ok_cases hadd
    obtain ⟨hbe, _⟩ := add_ok_shape hb
    have hlast : b.entries.getLast? = some ⟨kv.key, p.walltime, kv.value⟩ := by
      rw [hbe]; exact List.getLast?_concat _
    rcases hcase with ⟨_, hst⟩ | ⟨_, hst⟩
    · subst hst; exact lastSeenK_flush
    · subst hst; exact lastSeenK_cont hlast
  split at h
  · rename_i hfk
    split at h
    · cases h
    · rename_i hne
      have hemp : st.builder.entries = [] := inv.firstKey_none.mp hfk
      have hseen : lastSeenK st = st.lastKey := by
        unfold lastSeenK
        rw [hemp]
        rfl
      exact ⟨hseen ▸ hne, hnext _ h⟩
  · rename_i fk hfk
    obtain ⟨b, hb, _⟩ := writeAdd_ok_cases h
    have hne2 : st.builder.entries ≠ [] := by
      intro he
      exact Option.noConfusion (inv.firstKey_none.mpr he ▸ hfk)
    obtain ⟨last, hlast⟩ := Option.isSome_iff_exists.mp
      (List.getLast?_isSome.mpr hne2)
    have hlt := add_ok_lt hb hlast
    have htsl : last.ts = p.walltime := inv.ts_ok last (List.mem_of_getLast?_eq_some hlast)
    rw [mvccLT_same_ts (by rw [htsl])] at hlt
    have hseen : lastSeenK st = last.key := by
      unfold lastSeenK
      rw [hlast]
    refine ⟨?_, hnext _ h⟩
    rw [hseen]
    exact fun he => keyLT_ne hlt he.symm

/-- A failing loop iteration fails on a key equal to the last-seen one,
with either the explicit duplicate-key error or the wrapped `sst.Add`
error, both naming the consumed key. -/
theorem writeStep_err {p : WParams} {st : WState} {kv : KV} {er : ImportError}
    (inv : WOk p st) (hle : keyLEp (lastSeenK st) kv.key)
    (h : writeStep p st kv = .error er) :
    (er = .duplicateKey kv.key ∨ er = .sstAdd kv.key) ∧ kv.key = lastSeenK st := by
  unfold writeStep at h
  split at h
  · rename_i hfk
    have hemp : st.builder.entries = [] := inv.firstKey_none.mp hfk
    have hseen : lastSeenK st = st.lastKey := by
      unfold lastSeenK
      rw [hemp]
      rfl
    split at h
    · rename_i heq
      cases h
      exact ⟨Or.inl rfl, hseen ▸ heq⟩
    · obtain ⟨_, last, hlast, _⟩ := add_err_shape (writeAdd_err h)
      rw [hemp] at hlast
      cases hlast
  · rename_i fk hfk
    obtain ⟨her, last, hlast, hm⟩ := add_err_shape (writeAdd_err h)
    have htsl : last.ts = p.walltime := inv.ts_ok last (List.mem_of_getLast?_eq_some hlast)
    rw [mvccLT_same_ts (by rw [htsl])] at hm
    have hseen : lastSeenK st = last.key := by
      unfold lastSeenK
      rw [hlast]
    rw [hseen] at hle ⊢
    exact ⟨Or.inr her, (keyLE_of_not_keyLT (by rw [hm]; simp) hle).symm⟩

theorem writeLoop_ok_inv {p : WParams} (l : List KV) :
    ∀ {st st' : WState}, WOk p st → writeLoop p st l = .ok st' → WOk p st' := by
  induction l with
  | nil =>
    intro st st' inv h
    cases h
    exact inv
  | cons kv rest ih =>
    intro st st' inv h
    unfold writeLoop at h
    split at h
    · cases h
    · rename_i st2 hstep
      exact ih (writeStep_ok_inv inv hstep) h

/-- A successful run of the sorted-iteration loop never sees two equal
consecutive keys. -/
theorem writeLoop_ok_chain {p : WParams} (l : List KV) :
    ∀ {st st' : WState}, WOk p st → writeLoop p st l = .ok st' →
      List.Chain' (· ≠ ·) (lastSeenK st :: l.map KV.key) := by
  induction l with
  | nil =>
    intro st st' _ _
    simp
  | cons kv rest ih =>
    intro st st' inv h
    unfold writeLoop at h
    split at h
    · cases h
    · rename_i st2 hstep
      obtain ⟨hne, hseen⟩ := writeStep_ok_lastSeen inv hstep
      rw [List.map_cons, List.chain'_cons]
      refine ⟨fun he => hne he.symm, ?_⟩
      have := ih (writeStep_ok_inv inv hstep) h
      rw [hseen] at this
      exact this

/-- A failing run of the sorted-iteration loop fails with a
duplicate-naming error on a key that equals the key just before it in
the iteration order. -/
theorem writeLoop_err_split {p : WParams} (l : List KV) :
    ∀ {st : WState} {er : ImportError}, WOk p st →
      List.Chain' keyLEp (lastSeenK st :: l.map KV.key) →
      writeLoop p st l = .error er →
      ∃ k, (er = .duplicateKey k ∨ er = .sstAdd k) ∧
        ∃ pre x post, l = pre ++ x :: post ∧ x.key = k ∧
          ((pre = [] ∧ k = lastSeenK st) ∨
           (∃ y, pre.getLast? = some y ∧ y.key = k)) := by
  induction l with
  | nil =>
    intro st er _ _ h
    cases h
  | cons kv rest ih =>
    intro st er inv hchain h
    rw [List.map_cons, List.chain'_cons] at hchain
    unfold writeLoop at h
    split at h
    · rename_i e hstep
      cases h
      obtain ⟨hk, hkey⟩ := writeStep_err inv hchain.1 hstep
      exact ⟨kv.key, hk, [], kv, rest, rfl, rfl, Or.inl ⟨rfl, hkey⟩⟩
    · rename_i st2 hstep
      obtain ⟨_, hseen⟩ := writeStep_ok_lastSeen inv hstep
      have hchain2 : List.Chain' keyLEp (lastSeenK st2 :: rest.map KV.key) := by
        rw [hseen]
        exact hchain.2
      obtain ⟨k, hk, pre, x, post, hsplit, hxkey, hprev⟩ :=
        ih (writeStep_ok_inv inv hstep) hchain2 h
      refine ⟨k, hk, kv :: pre, x, post, by rw [hsplit]; rfl, hxkey, Or.inr ?_⟩
      rcases hprev with ⟨hpre, hk2⟩ | ⟨y, hy, hyk⟩
      · subst hpre
        exact ⟨kv, rfl, by rw [hk2, hseen]⟩
      · refine ⟨y, ?_, hyk⟩
        cases pre with
        | nil => cases hy
        | cons q qs => rw [List.getLast?_cons_cons]; exact hy

theorem sorted_keys_pairwise (kvs : List KV) :
    ((List.insertionSort kvLE kvs).map KV.key).Pairwise keyLEp := by
  rw [List.pairwise_map]
  exact List.sorted_insertionSort kvLE kvs

theorem sorted_keys_perm (kvs : List KV) :
    List.Perm ((List.insertionSort kvLE kvs).map KV.key) (kvs.map KV.key) :=
  (List.perm_insertionSort kvLE kvs).map KV.key

/-- Every segment emitted by the final flush satisfies the segment shape
invariant, and all segments but possibly the final one exceeded
`sstMaxSize` when emitted. -/
theorem finalFlush_good {p : WParams} {st : WState} (inv : WOk p st) :
    (∀ seg ∈ finalFlush st, segGood p seg) ∧
    (∀ seg ∈ (finalFlush st).dropLast, seg.size > p.sstMaxSize) := by
  have hold : ∀ seg ∈ st.segs, segGood p seg ∧ seg.size > p.sstMaxSize :=
    inv.segs_ok
  have hsub : ∀ seg ∈ st.segs.dropLast, seg.size > p.sstMaxSize := fun seg hseg =>
    (hold seg ((List.dropLast_sublist st.segs).subset hseg)).2
  unfold finalFlush
  split
  · rename_i hpos
    split
    · rename_i fk le hfk hle
      constructor
      · intro seg hseg
        rcases List.mem_append.mp hseg with hseg | hseg
        · exact (hold seg hseg).1
        · have hne2 : st.builder.entries ≠ [] := by
            intro h0
            rw [h0] at hle
            cases hle
          have hlk : (st.builder.entries.map MVCCKeyValue.key).getLast? = some le.key := by
            rw [List.getLast?_map, hle]
            rfl
          rw [List.mem_singleton.mp hseg]
          exact ⟨hne2, inv.size_eq, inv.firstKey_head fk hfk, ⟨le.key, hlk, rfl⟩, inv.ts_ok⟩
      · intro seg hseg
        rw [List.dropLast_concat] at hseg
        exact (hold seg hseg).2
    · exact ⟨fun seg hseg => (hold seg hseg).1, hsub⟩
  · exact ⟨fun seg hseg => (hold seg hseg).1, hsub⟩

/-- `writeRocksDB` success analysis: every emitted segment is
well-shaped — non-empty, sized by its entries, span from its first entry
key to its last entry key's `Next()`, entries stamped with the pipeline
wall-time — and every segment except possibly the last was over
`sstMaxSize` when flushed. -/
theorem writeRocksDB_ok_shape {p : WParams} {kvs : List KV} {segs : List SstContent}
    {cnt : Nat} (h : writeRocksDB p kvs = .ok (segs, cnt)) :
    (∀ seg ∈ segs, segGood p seg) ∧
    (∀ seg ∈ segs.dropLast, seg.size > p.sstMaxSize) := by
  simp only [writeRocksDB] at h
  split at h
  · cases h
  · rename_i st hrun
    cases h
    have inv := writeLoop_ok_inv _ (initW_ok p) hrun
    exact finalFlush_good inv

theorem duplicate_of_perm {x : Key} {l l2 : List Key}
    (hp : List.Perm l l2) (hd : List.Duplicate x l) : List.Duplicate x l2 := by
  rw [List.duplicate_iff_two_le_count] at hd ⊢
  rw [← hp.count_eq x]
  exact hd

/-- `writeRocksDB` failure analysis: any duplicate key among the input
KVs (with the degenerate empty key excluded) forces the single returned
error to be one of the two duplicate-naming errors, naming a key that
indeed occurs at least twice. -/
theorem writeRocksDB_duplicate {p : WParams} {kvs : List KV}
    (hne : ∀ k ∈ kvs.map KV.key, k ≠ [])
    (hdup : ¬ (kvs.map KV.key).Nodup) :
    ∃ er k, writeRocksDB p kvs = .error er ∧
      (er = .duplicateKey k ∨ er = .sstAdd k) ∧
      List.Duplicate k (kvs.map KV.key) ∧
      containsStr "duplicate" (errMsg er) ∧
      containsStr (keyStr k) (errMsg er) := by
  have hperm := sorted_keys_perm kvs
  have hpw := sorted_keys_pairwise kvs
  have hseen0 : lastSeenK initW = [] := rfl
  cases hrun : writeLoop p initW (List.insertionSort kvLE kvs) with
  | ok st =>
    exfalso
    have hchain := writeLoop_ok_chain _ (initW_ok p) hrun
    rw [hseen0] at hchain
    have hchain2 : ((List.insertionSort kvLE kvs).map KV.key).Chain' (· ≠ ·) :=
      (List.chain'_cons'.mp hchain).2
    exact hdup (hperm.nodup_iff.mp (nodup_of_sorted_chain hpw hchain2))
  | error er =>
    have hchain0 : List.Chain' keyLEp
        (lastSeenK initW :: (List.insertionSort kvLE kvs).map KV.key) := by
      rw [hseen0, List.chain'_cons']
      exact ⟨fun y _ => rfl, hpw.chain'⟩
    obtain ⟨k, hk, pre, x, post, hsplit, hxkey, hprev⟩ :=
      writeLoop_err_split _ (initW_ok p) hchain0 hrun
    have hres : writeRocksDB p kvs = .error er := by
      simp only [writeRocksDB]
      rw [hrun]
    have hcount : List.Duplicate k (kvs.map KV.key) := by
      rcases hprev with ⟨hpre, hk2⟩ | ⟨y, hy, hyk⟩
      · exfalso
        rw [hseen0] at hk2
        have hmem : k ∈ (List.insertionSort kvLE kvs).map KV.key := by
          rw [hsplit]
          exact hxkey ▸ List.mem_map_of_mem KV.key (by simp)
        exact hne k (hperm.mem_iff.mp hmem) hk2
      · have hymem : k ∈ pre.map KV.key := by
          rw [← hyk]
          exact List.mem_map_of_mem KV.key (List.mem_of_getLast?_eq_some hy)
        have hsub : List.Sublist [k, k] ((List.insertionSort kvLE kvs).map KV.key) := by
          rw [hsplit, List.map_append, List.map_cons, hxkey]
          exact List.Sublist.append (List.singleton_sublist.mpr hymem)
            (List.singleton_sublist.mpr (List.mem_cons_self _ _))
        exact duplicate_of_perm hperm (List.duplicate_iff_sublist.mpr hsub)
    rcases hk with hk | hk <;> subst hk
    · exact ⟨_, k, hres, Or.inl rfl, hcount,
        duplicate_in_duplicateKey k, keyStr_in_duplicateKey k⟩
    · exact ⟨_, k, hres, Or.inr rfl, hcount,
        duplicate_in_sstAdd k, keyStr_in_sstAdd k⟩

/-- A `csvRecord` sent on `recordCh`: the (possibly trimmed) fields, the
source file, and the 1-based row number within that file. -/
structure CsvRecord where
  r : List String
  file : String
  row : Nat
deriving DecidableEq, Repr

/-- Per-row field-count validation of `readCSV` (lines 344–351): accept
an exact-arity row; accept and trim a row with one extra empty trailing
field; otherwise fail with the row-numbered arity error. -/
def validateRow (expectedCols rowNum : Nat) (record : List String) :
    Except ImportError (List String) :=
  if record.length = expectedCols then .ok record
  else if record.length = expectedCols + 1 ∧ record.getLast? = some "" then
    .ok (record.take expectedCols)
  else .error (.expectedFields rowNum expectedCols record.length)

/-- The row loop of `readCSV` over one data file (lines 336–363), with
`i` the 1-based number of the next row.  Returns the records sent on
`recordCh` for this file; Go's running `count` is their number. -/
def fileRecords (expectedCols : Nat) (file : String) :
    Nat → List (List String) → Except ImportError (List CsvRecord)
  | _, [] => .ok []
  | i, r :: rs =>
    match validateRow expectedCols i r with
    | .error e => .error e
    | .ok v =>
      match fileRecords expectedCols file (i + 1) rs with
      | .error e => .error e
      | .ok vs => .ok (⟨v, file, i⟩ :: vs)

/-- `readCSV` (lines 298–371) over its list of data files, each a name
with its decoded rows: files are drained in order, row numbers restart
at 1 per file, and a failing file's error is wrapped with the file
name. -/
def readCSV (expectedCols : Nat) :
    List (String × List (List String)) → Except ImportError (List CsvRecord)
  | [] => .ok []
  | (f, rows) :: files =>
    match fileRecords expectedCols f 1 rows with
    | .error e => .error (.wrapped f e)
    | .ok recs =>
      match readCSV expectedCols files with
      | .error e => .error e
      | .ok recs2 => .ok (recs ++ recs2)

/-- The two acceptable row shapes of the reader. -/
def rowOk (expectedCols : Nat) (r : List String) : Prop :=
  r.length = expectedCols ∨ (r.length = expectedCols + 1 ∧ r.getLast? = some "")

instance (expectedCols : Nat) (r : List String) : Decidable (rowOk expectedCols r) := by
  unfold rowOk
  infer_instance

theorem validateRow_exact {expectedCols rowNum : Nat} {r : List String}
    (h : r.length = expectedCols) :
    validateRow expectedCols rowNum r = .ok r := by
  simp [validateRow, h]

theorem validateRow_trim {expectedCols rowNum : Nat} {r : List String}
    (h1 : r.length = expectedCols + 1) (h2 : r.getLast? = some "") :
    validateRow expectedCols rowNum r = .ok (r.take expectedCols) := by
  have hne : r.length ≠ expectedCols := by omega
  simp [validateRow, hne, h1, h2]

theorem validateRow_err {expectedCols rowNum : Nat} {r : List String}
    (h : ¬ rowOk expectedCols r) :
    validateRow expectedCols rowNum r =
      .error (.expectedFields rowNum expectedCols r.length) := by
  unfold rowOk at h
  push_neg at h
  have hcond : ¬ (r.length = expectedCols + 1 ∧ r.getLast? = some "") := by
    rintro ⟨h1, h2⟩
    exact h.2 h1 h2
  unfold validateRow
  rw [if_neg h.1, if_neg hcond]

theorem validateRow_ok_of_rowOk {expectedCols rowNum : Nat} {r : List String}
    (h : rowOk expectedCols r) :
    ∃ v, validateRow expectedCols rowNum r = .ok v := by
  rcases h with h | ⟨h1, h2⟩
  · exact ⟨r, validateRow_exact h⟩
  · exact ⟨r.take expectedCols, validateRow_trim h1 h2⟩

theorem fileRecords_first_bad {expectedCols : Nat} {f : String} {r : List String} :
    ∀ (rows : List (List String)) (i n : Nat),
      (∀ j, j < i → ∀ s, rows[j]? = some s → rowOk expectedCols s) →
      rows[i]? = some r → ¬ rowOk expectedCols r →
      fileRecords expectedCols f n rows =
        .error (.expectedFields (n + i) expectedCols r.length) := by
  intro rows
  induction rows with
  | nil =>
    intro i n _ hr _
    simp at hr
  | cons r0 rest ih =>
    intro i n hok hr hbad
    cases i with
    | zero =>
      simp at hr
      subst hr
      unfold fileRecords
      rw [validateRow_err hbad]
      simp
    | succ i2 =>
      have hok0 : rowOk expectedCols r0 := hok 0 (Nat.succ_pos _) r0 (by simp)
      obtain ⟨v, hv⟩ := @validateRow_ok_of_rowOk expectedCols n r0 hok0
      unfold fileRecords
      rw [hv]
      have hih := ih i2 (n + 1)
        (fun j hj s hs => hok (j + 1) (Nat.succ_lt_succ hj) s (by simpa using hs))
        (by simpa using hr) hbad
      rw [hih]
      have : n + 1 + i2 = n + (i2 + 1) := by omega
      rw [this]

theorem fileRecords_all_ok {expectedCols : Nat} {f : String} :
    ∀ (rows : List (List String)) (n : Nat),
      (∀ r ∈ rows, rowOk expectedCols r) →
      ∃ recs, fileRecords expectedCols f n rows = .ok recs ∧
        recs.length = rows.length := by
  intro rows
  induction rows with
  | nil => exact fun n _ => ⟨[], rfl, rfl⟩
  | cons r0 rest ih =>
    intro n hok
    obtain ⟨v, hv⟩ := @validateRow_ok_of_rowOk expectedCols n r0
      (hok r0 (List.mem_cons_self _ _))
    obtain ⟨recs, hrecs, hlen⟩ := ih (n + 1)
      (fun r hr => hok r (List.mem_cons_of_mem _ hr))
    refine ⟨⟨v, f, n⟩ :: recs, ?_, by simp [hlen]⟩
    unfold fileRecords
    rw [hv, hrecs]

/-- A column of the produced table descriptor: its name, whether it is
hidden (like the synthetic `_rowid`), and its optional DEFAULT
expression. -/
structure ColumnDescriptor where
  name : String
  hidden : Bool
  defaultExpr : Option String
deriving DecidableEq, Repr

/-- The slice of `parser.CreateTable` that `makeCSVTableDescriptor`
inspects: the `IF NOT EXISTS`, `INTERLEAVE` and `AS` clauses, whether
any definition declares a foreign-key reference, and the columns the
statement declares. -/
structure CreateTable where
  ifNotExists : Bool
  interleave : Bool
  asSource : Bool
  hasFKs : Bool
  columns : List ColumnDescriptor
deriving DecidableEq, Repr

/-- The slice of `sqlbase.TableDescriptor` the pipeline uses. -/
structure TableDescriptor where
  columns : List ColumnDescriptor
deriving DecidableEq, Repr

/-- `tableDesc.VisibleColumns()`: the non-hidden columns. -/
def visibleColumns (d : TableDescriptor) : List ColumnDescriptor :=
  d.columns.filter (fun c => !c.hidden)

/-- `makeCSVTableDescriptor` (lines 243–282): reject `IF NOT EXISTS`,
`INTERLEAVE` and `CREATE TABLE ... AS`; build the descriptor; then
reject the first visible column carrying a DEFAULT expression.  The
external `sql.MakeTableDesc` call is modelled from the spec as carrying
the declared columns into the descriptor; the source deliberately
performs no foreign-key check here (`TODO(mjibson): error on FKs`,
line 255), so the `hasFKs` flag is not inspected. -/
def makeCSVTableDescriptor (create : CreateTable) :
    Except ImportError TableDescriptor :=
  if create.ifNotExists then .error .unsupportedIfNotExists
  else if create.interleave then .error .interleavedNotSupported
  else if create.asSource then .error .createAsNotSupported
  else
    let tableDesc : TableDescriptor := ⟨create.columns⟩
    match (visibleColumns tableDesc).find? (fun c => c.defaultExpr.isSome) with
    | some col => .error (.defaultUnsupported col.name)
    | none => .ok tableDesc

/-- The local pipeline prefix of `doLocalCSVTransform` (lines 141–207)
as far as the claims need it: descriptor construction, then the reader
over the CSV files, then conversion (the external row encoder is a
parameter `conv`), then the sort-and-segment writer.  A descriptor error
occurs before any CSV data is read. -/
def localPipeline (conv : TableDescriptor → List String → List KV)
    (p : WParams) (create : CreateTable)
    (files : List (String × List (List String))) :
    Except ImportError (List SstContent × Nat) :=
  match makeCSVTableDescriptor create with
  | .error e => .error e
  | .ok desc =>
    match readCSV (visibleColumns desc).length files with
    | .error e => .error e
    | .ok recs => writeRocksDB p (recs.flatMap (fun rec => conv desc rec.r))

theorem makeCSVTableDescriptor_default {create : CreateTable} {col : ColumnDescriptor}
    (h1 : create.ifNotExists = false) (h2 : create.interleave = false)
    (h3 : create.asSource = false)
    (hfind : (visibleColumns ⟨create.columns⟩).find? (fun c => c.defaultExpr.isSome)
      = some col) :
    makeCSVTableDescriptor create = .error (.defaultUnsupported col.name) := by
  unfold makeCSVTableDescriptor
  rw [h1, h2, h3]
  simp only [Bool.false_eq_true, if_false]
  rw [hfind]

theorem colName_in_defaultUnsupported (colName : String) :
    containsStr colName (errMsg (.defaultUnsupported colName)) := by
  show containsStr colName ("column \x22" ++ colName ++ _)
  exact containsStr_append_left _ _ _
    (containsStr_append_right _ _ _ (containsStr_self _))

/-- One entry of `BackupDescriptor.Files`. -/
structure BackupFile where
  path : String
  span : Span
  sha512 : List Nat
deriving DecidableEq, Repr

/-- The slice of `BackupDescriptor` the finalizer populates (external
build-info, node and cluster fields are glue and omitted). -/
structure BackupDescriptor where
  endTime : Int
  dataSize : Int
  files : List BackupFile
  spans : List Span
  formatVersion : Nat
deriving DecidableEq, Repr

/-- Modelled from the spec: the canonical descriptor-entry ordering used
by `backupFileDescriptors` (external type) — by span start key, then end
key. -/
def fileLE (a b : BackupFile) : Prop :=
  keyLTp a.span.key b.span.key ∨
    (a.span.key = b.span.key ∧ keyLEp a.span.endKey b.span.endKey)

instance : DecidableRel fileLE := fun a b => by
  unfold fileLE keyLTp keyLEp
  infer_instance

/-- `finalizeCSVBackup` (lines 617–649): reject an empty file list; sort
the entries; record the covered table span and the format version.  A
returned `.ok` descriptor is the one marshalled and written to storage
under the well-known descriptor name; on `.error` nothing is written. -/
def finalizeCSVBackup (tableSpan : Span) (desc : BackupDescriptor) :
    Except ImportError BackupDescriptor :=
  if desc.files = [] then .error .noFiles
  else .ok { desc with
    files := List.insertionSort fileLE desc.files,
    spans := [tableSpan],
    formatVersion := 1 }

/-- The 1-based segment file name `fmt.Sprintf("%d.sst", i)`. -/
def sstName (i : Nat) : String := toString i ++ ".sst"

/-- The receive loop of `makeBackup` (lines 591–609) with `i` segments
already consumed: per segment, accumulate the descriptor entry (name,
span, checksum), the storage write (name, blob), and the running
`EntryCounts.DataSize`. -/
def backupLoop (chk : List MVCCKeyValue → List Nat) :
    Nat → List SstContent →
      List BackupFile × List (String × List MVCCKeyValue) × Int
  | _, [] => ([], [], 0)
  | i, s :: ss =>
    let rest := backupLoop chk (i + 1) ss
    (⟨sstName (i + 1), s.span, chk s.data⟩ :: rest.1,
     (sstName (i + 1), s.data) :: rest.2.1,
     s.size + rest.2.2)

/-- The observable outcome of one `makeBackup` run: the files written to
the destination store, the accumulated descriptor entries, the
descriptor written by the finalizer (if any), the error (if any), and
the returned count — Go returns `int64(len(backupDesc.Files))` together
with the finalizer's error. -/
structure BackupResult where
  written : List (String × List MVCCKeyValue)
  entries : List BackupFile
  descWritten : Option BackupDescriptor
  err : Option ImportError
  ret : Int
deriving DecidableEq, Repr

/-- `makeBackup` (lines 568–613): consume the segment channel (the
`segs` list), writing each segment and accumulating entries, then
finalize.  SHA-512 (external `storageccl.SHA512ChecksumData`) is kept
abstract as the checksum function `chk`. -/
def makeBackup (chk : List MVCCKeyValue → List Nat) (walltime : Int)
    (tableSpan : Span) (segs : List SstContent) : BackupResult :=
  let acc := backupLoop chk 0 segs
  let desc : BackupDescriptor := ⟨walltime, acc.2.2, acc.1, [], 0⟩
  match finalizeCSVBackup tableSpan desc with
  | .ok d => ⟨acc.2.1, acc.1, some d, none, (acc.1.length : Int)⟩
  | .error e => ⟨acc.2.1, acc.1, none, some e, (acc.1.length : Int)⟩

theorem backupLoop_length (chk : List MVCCKeyValue → List Nat) :
    ∀ (segs : List SstContent) (i : Nat),
      (backupLoop chk i segs).1.length = segs.length ∧
      (backupLoop chk i segs).2.1.length = segs.length := by
  intro segs
  induction segs with
  | nil => intro i; exact ⟨rfl, rfl⟩
  | cons s ss ih =>
    intro i
    have := ih (i + 1)
    unfold backupLoop
    simp [this.1, this.2]

theorem backupLoop_get (chk : List MVCCKeyValue → List Nat) :
    ∀ (segs : List SstContent) (i j : Nat) (s : SstContent),
      segs[j]? = some s →
      (backupLoop chk i segs).1[j]? = some ⟨sstName (i + j + 1), s.span, chk s.data⟩ ∧
      (backupLoop chk i segs).2.1[j]? = some (sstName (i + j + 1), s.data) := by
  intro segs
  induction segs with
  | nil =>
    intro i j s hs
    simp at hs
  | cons s0 ss ih =>
    intro i j s hs
    cases j with
    | zero =>
      simp at hs
      subst hs
      unfold backupLoop
      simp
    | succ j2 =>
      have := ih (i + 1) j2 s (by simpa using hs)
      unfold backupLoop
      have harith : i + 1 + j2 + 1 = i + (j2 + 1) + 1 := by omega
      rw [harith] at this
      simp only [List.getElem?_cons_succ]
      exact this

/-- `sampleAll` (line 1130). -/
def sampleAll (_kv : KV) : Bool := true

/-- `sampleRate.sample` (lines 1124–1128), with exact rational
arithmetic in place of `float64` and `draw` the value returned by the
sampler's `rnd.Float64()` for this KV. -/
def sampleRateSample (sampleSize draw : ℚ) (kv : KV) : Bool :=
  let sz : ℚ := ((kv.key.length + kv.value.length : Nat) : ℚ)
  let prob := sz / sampleSize
  decide (prob > draw)

/-- The sampling dispatch of `readCSVProcessor.Run` (lines 1064–1074):
a zero `sampleSize` selects `sampleAll`, otherwise `sampleRate.sample`
with `float64(cp.sampleSize)`. -/
def admitKV (sampleSize : Int) (draw : ℚ) (kv : KV) : Bool :=
  if sampleSize = 0 then sampleAll kv
  else sampleRateSample (sampleSize : ℚ) draw kv

/-- The result row pushed on `resultsCh` by `importPlanHook` in
transform-only mode (lines 869–880).  The counts produced by the
pipeline (`csvCount, kvCount, sstCount` of `doLocalCSVTransform`) are
bound to `_` at line 856 and never reach the row, which carries four
literal-zero count datums. -/
structure ResultRow where
  jobID : Int
  status : String
  fractionDone : ℚ
  rowsWritten : Int
  indexEntries : Int
  systemRecords : Int
  dataBytes : Int
deriving DecidableEq, Repr

/-- The transform-only result row of `importPlanHook` as a function of
the job id and of the pipeline's (discarded) counts. -/
def transformOnlyResult (jobID : Int) (_counts : Int × Int × Int) : ResultRow :=
  ⟨jobID, "succeeded", 1, 0, 0, 0, 0⟩

/-- C1: a duplicate key anywhere among the KVs reaching `writeRocksDB`
(the empty key excluded as degenerate) makes the run fail with the
single returned error naming a twice-occurring key and mentioning
`duplicate`; in particular, when no segment is open and the current key
equals the previous segment's last key, the step fails with exactly the
duplicate-key error naming that key. -/
theorem claim_C1 :
    (∀ (p : WParams) (kvs : List KV),
      (∀ k ∈ kvs.map KV.key, k ≠ []) → ¬ (kvs.map KV.key).Nodup →
      ∃ er k, writeRocksDB p kvs = .error er ∧
        (er = .duplicateKey k ∨ er = .sstAdd k) ∧
        List.Duplicate k (kvs.map KV.key) ∧
        containsStr "duplicate" (errMsg er) ∧
        containsStr (keyStr k) (errMsg er)) ∧
    (∀ (p : WParams) (st : WState) (kv : KV),
      st.firstKey = none → kv.key = st.lastKey →
      writeStep p st kv = .error (.duplicateKey kv.key) ∧
      containsStr "duplicate" (errMsg (.duplicateKey kv.key)) ∧
      containsStr (keyStr kv.key) (errMsg (.duplicateKey kv.key))) := by
  constructor
  · intro p kvs hne hdup
    exact writeRocksDB_duplicate hne hdup
  · intro p st kv hfk hlk
    refine ⟨?_, duplicate_in_duplicateKey _, keyStr_in_duplicateKey _⟩
    unfold writeStep
    rw [hfk, if_pos hlk]

theorem claim_C1_witness :
    (∃ er k,
      writeRocksDB ⟨100, 7⟩ [⟨[1], [5]⟩, ⟨[1], [6]⟩] = .error er ∧
      (er = .duplicateKey k ∨ er = .sstAdd k) ∧
      List.Duplicate k (([⟨[1], [5]⟩, ⟨[1], [6]⟩] : List KV).map KV.key) ∧
      containsStr "duplicate" (errMsg er) ∧
      containsStr (keyStr k) (errMsg er)) ∧
    (writeStep ⟨100, 7⟩ ⟨⟨[], 0⟩, none, [3], 2, []⟩ ⟨[3], [9]⟩ =
        .error (.duplicateKey [3]) ∧
      containsStr "duplicate" (errMsg (.duplicateKey [3])) ∧
      containsStr (keyStr [3]) (errMsg (.duplicateKey [3]))) :=
  ⟨claim_C1.1 ⟨100, 7⟩ [⟨[1], [5]⟩, ⟨[1], [6]⟩] (by decide) (by decide),
   claim_C1.2 ⟨100, 7⟩ ⟨⟨[], 0⟩, none, [3], 2, []⟩ ⟨[3], [9]⟩ rfl rfl⟩

/-- C2: a loop iteration of `writeRocksDB` flushes a segment exactly
when the builder's post-`Add` byte size exceeds `sstMaxSize`, with span
`[firstKey, lastAddedKey.Next())`; on a successful run every emitted
segment (the final flush included) spans from its first entry's key to
its last entry's key's `Next()`, and every segment except possibly the
last exceeded `sstMaxSize` when it was emitted. -/
theorem claim_C2 :
    (∀ (p : WParams) (st : WState) (kv : KV) (b : SstBuilder) (st' : WState),
      st.builder.add ⟨kv.key, p.walltime, kv.value⟩ = .ok b →
      writeStep p st kv = .ok st' →
      ((b.dataSize > p.sstMaxSize →
        st'.segs = st.segs ++
          [⟨b.entries, b.dataSize, ⟨st.firstKey.getD kv.key, kv.key ++ [0]⟩⟩] ∧
        st'.firstKey = none ∧ st'.builder = ⟨[], 0⟩ ∧ st'.lastKey = kv.key) ∧
       (¬ b.dataSize > p.sstMaxSize →
        st'.segs = st.segs ∧ st'.builder = b ∧ st'.lastKey = st.lastKey))) ∧
    (∀ (st : WState) (fk : Key) (le : MVCCKeyValue),
      st.builder.dataSize > 0 → st.firstKey = some fk →
      st.builder.entries.getLast? = some le →
      finalFlush st = st.segs ++
        [⟨st.builder.entries, st.builder.dataSize, ⟨fk, le.key ++ [0]⟩⟩]) ∧
    (∀ st : WState, ¬ st.builder.dataSize > 0 → finalFlush st = st.segs) ∧
    (∀ (p : WParams) (kvs : List KV) (segs : List SstContent) (cnt : Nat),
      writeRocksDB p kvs = .ok (segs, cnt) →
      (∀ seg ∈ segs.dropLast, seg.size > p.sstMaxSize) ∧
      (∀ seg ∈ segs, seg.data ≠ [] ∧
        (seg.data.map MVCCKeyValue.key).head? = some seg.span.key ∧
        ∃ lk, (seg.data.map MVCCKeyValue.key).getLast? = some lk ∧
          seg.span.endKey = lk ++ [0])) := by
  refine ⟨?_, ?_, ?_, ?_⟩
  case refine_2 =>
    intro st fk le hpos hfk hle
    unfold finalFlush
    rw [if_pos hpos, hfk, hle]
  case refine_3 =>
    intro st hpos
    unfold finalFlush
    rw [if_neg hpos]
  · intro p st kv b st' hadd hstep
    have hgo : ∀ fk, st.firstKey.getD kv.key = fk → writeAdd p st kv fk = .ok st' →
        ((b.dataSize > p.sstMaxSize →
          st'.segs = st.segs ++
            [⟨b.entries, b.dataSize, ⟨st.firstKey.getD kv.key, kv.key ++ [0]⟩⟩] ∧
          st'.firstKey = none ∧ st'.builder = ⟨[], 0⟩ ∧ st'.lastKey = kv.key) ∧
         (¬ b.dataSize > p.sstMaxSize →
          st'.segs = st.segs ∧ st'.builder = b ∧ st'.lastKey = st.lastKey)) := by
      intro fk hfk hok
      obtain ⟨b2, hb2, hcase⟩ := writeAdd_ok_cases hok
      rw [hadd] at hb2
      cases hb2
      rw [hfk]
      rcases hcase with ⟨hsz, hst⟩ | ⟨hsz, hst⟩ <;> subst hst
      · exact ⟨fun _ => ⟨rfl, rfl, rfl, rfl⟩, fun hn => absurd hsz hn⟩
      · exact ⟨fun hp => absurd hp hsz, fun _ => ⟨rfl, rfl, rfl⟩⟩
    unfold writeStep at hstep
    split at hstep
    · rename_i hfk
      split at hstep
      · cases hstep
      · exact hgo kv.key (by rw [hfk]; rfl) hstep
    · rename_i fk hfk
      exact hgo fk (by rw [hfk]; rfl) hstep
  · intro p kvs segs cnt h
    obtain ⟨hgood, hsz⟩ := writeRocksDB_ok_shape h
    refine ⟨hsz, fun seg hseg => ?_⟩
    obtain ⟨h1, _, h3, h4, _⟩ := hgood seg hseg
    exact ⟨h1, h3, h4⟩

theorem claim_C2_witness :
    (∃ st' : WState, writeStep ⟨15, 7⟩ initW ⟨[1], [8]⟩ = .ok st' ∧
      st'.segs = initW.segs ∧ st'.builder = ⟨[⟨[1], 7, [8]⟩], 10⟩ ∧
      st'.lastKey = initW.lastKey) ∧
    (finalFlush ⟨⟨[⟨[1], 7, [8]⟩], 10⟩, some [1], [], 1, []⟩ =
      [⟨[⟨[1], 7, [8]⟩], 10, ⟨[1], [1, 0]⟩⟩]) ∧
    (finalFlush initW = []) ∧
    (∃ (segs : List SstContent) (cnt : Nat),
      writeRocksDB ⟨15, 7⟩ [⟨[2], [9]⟩, ⟨[1], [8]⟩, ⟨[3], []⟩] = .ok (segs, cnt) ∧
      (∀ seg ∈ segs.dropLast, seg.size > (15 : Int)) ∧
      (∀ seg ∈ segs, seg.data ≠ [] ∧
        (seg.data.map MVCCKeyValue.key).head? = some seg.span.key ∧
        ∃ lk, (seg.data.map MVCCKeyValue.key).getLast? = some lk ∧
          seg.span.endKey = lk ++ [0])) := by
  refine ⟨?_, ?_, ?_, ?_⟩
  · refine ⟨⟨⟨[⟨[1], 7, [8]⟩], 10⟩, some [1], [], 1, []⟩, rfl, ?_⟩
    have h := (claim_C2.1 ⟨15, 7⟩ initW ⟨[1], [8]⟩ ⟨[⟨[1], 7, [8]⟩], 10⟩
      ⟨⟨[⟨[1], 7, [8]⟩], 10⟩, some [1], [], 1, []⟩ rfl rfl).2 (by decide)
    exact ⟨h.1, h.2.1, h.2.2⟩
  · exact claim_C2.2.1 ⟨⟨[⟨[1], 7, [8]⟩], 10⟩, some [1], [], 1, []⟩ [1]
      ⟨[1], 7, [8]⟩ (by decide) rfl rfl
  · exact claim_C2.2.2.1 initW (by decide)
  · refine ⟨[⟨[⟨[1], 7, [8]⟩, ⟨[2], 7, [9]⟩], 20, ⟨[1], [2, 0]⟩⟩,
      ⟨[⟨[3], 7, []⟩], 9, ⟨[3], [3, 0]⟩⟩], 3, rfl, ?_⟩
    exact claim_C2.2.2.2 ⟨15, 7⟩ [⟨[2], [9]⟩, ⟨[1], [8]⟩, ⟨[3], []⟩] _ 3 rfl

/-- C3: the reader accepts a row with exactly the expected field count;
accepts and trims a row with one extra field whose last field is empty;
and otherwise fails with `row N: expected X fields, got Y`, where `N` is
the 1-based number of the first offending row. -/
theorem claim_C3 :
    (∀ (expectedCols rowNum : Nat) (r : List String),
      r.length = expectedCols → validateRow expectedCols rowNum r = .ok r) ∧
    (∀ (expectedCols rowNum : Nat) (r : List String),
      r.length = expectedCols + 1 → r.getLast? = some "" →
      validateRow expectedCols rowNum r = .ok (r.take expectedCols)) ∧
    (∀ (expectedCols rowNum : Nat) (r : List String),
      ¬ rowOk expectedCols r →
      validateRow expectedCols rowNum r =
        .error (.expectedFields rowNum expectedCols r.length) ∧
      errMsg (.expectedFields rowNum expectedCols r.length) =
        "row " ++ toString rowNum ++ ": expected " ++ toString expectedCols ++
        " fields, got " ++ toString r.length) ∧
    (∀ (expectedCols : Nat) (f : String) (rows : List (List String))
        (i : Nat) (r : List String),
      (∀ j, j < i → ∀ s, rows[j]? = some s → rowOk expectedCols s) →
      rows[i]? = some r → ¬ rowOk expectedCols r →
      readCSV expectedCols [(f, rows)] =
        .error (.wrapped f (.expectedFields (i + 1) expectedCols r.length))) := by
  refine ⟨fun _ _ _ h => validateRow_exact h,
    fun _ _ _ h1 h2 => validateRow_trim h1 h2,
    fun _ _ _ h => ⟨validateRow_err h, rfl⟩,
    fun expectedCols f rows i r hok hr hbad => ?_⟩
  have hfr := @fileRecords_first_bad expectedCols f r rows i 1 hok hr hbad
  rw [Nat.add_comm 1 i] at hfr
  unfold readCSV
  rw [hfr]

theorem claim_C3_witness :
    (validateRow 2 1 ["a", "b"] = .ok ["a", "b"]) ∧
    (validateRow 2 4 ["a", "b", ""] = .ok ["a", "b"]) ∧
    (validateRow 2 5 ["a"] = .error (.expectedFields 5 2 1) ∧
      errMsg (.expectedFields 5 2 1) =
        "row " ++ toString 5 ++ ": expected " ++ toString 2 ++
        " fields, got " ++ toString 1) ∧
    (readCSV 2 [("f.csv", [["a", "b"], ["x"]])] =
      .error (.wrapped "f.csv" (.expectedFields 2 2 1))) := by
  refine ⟨claim_C3.1 2 1 ["a", "b"] rfl,
    claim_C3.2.1 2 4 ["a", "b", ""] rfl rfl,
    claim_C3.2.2.1 2 5 ["a"] (by decide), ?_⟩
  have h := claim_C3.2.2.2 2 "f.csv" [["a", "b"], ["x"]] 1 ["x"] ?phok (by simp)
    (by decide)
  · exact h
  case phok =>
    intro j hj s hs
    interval_cases j
    simp at hs
    subst hs
    left
    rfl

/-- C4: an empty file list makes `finalizeCSVBackup` fail with the
`no files in backup` error, and a `makeBackup` run that received no
segments writes no descriptor and surfaces exactly that error. -/
theorem claim_C4 :
    (∀ (tableSpan : Span) (desc : BackupDescriptor),
      desc.files = [] →
      finalizeCSVBackup tableSpan desc = .error .noFiles ∧
      errMsg .noFiles = "no files in backup") ∧
    (∀ (chk : List MVCCKeyValue → List Nat) (walltime : Int) (tableSpan : Span),
      (makeBackup chk walltime tableSpan []).descWritten = none ∧
      (makeBackup chk walltime tableSpan []).err = some .noFiles) := by
  constructor
  · intro tableSpan desc h
    unfold finalizeCSVBackup
    rw [if_pos h]
    exact ⟨rfl, rfl⟩
  · intro chk walltime tableSpan
    exact ⟨rfl, rfl⟩

theorem claim_C4_witness :
    (finalizeCSVBackup ⟨[], [0]⟩ ⟨0, 0, [], [], 0⟩ = .error .noFiles ∧
      errMsg .noFiles = "no files in backup") ∧
    ((makeBackup (fun _ => []) 7 ⟨[], [0]⟩ []).descWritten = none ∧
      (makeBackup (fun _ => []) 7 ⟨[], [0]⟩ []).err = some .noFiles) :=
  ⟨claim_C4.1 ⟨[], [0]⟩ ⟨0, 0, [], [], 0⟩ rfl,
   claim_C4.2 (fun _ => []) 7 ⟨[], [0]⟩⟩

/-- C5: with the three structural clauses absent, a visible column
carrying a DEFAULT expression makes `makeCSVTableDescriptor` fail with
an error naming that column, and the whole local pipeline fails the same
way for every converter and every CSV input — before any CSV data is
read. -/
theorem claim_C5 :
    ∀ (create : CreateTable) (col : ColumnDescriptor),
      create.ifNotExists = false → create.interleave = false →
      create.asSource = false →
      (visibleColumns ⟨create.columns⟩).find? (fun c => c.defaultExpr.isSome)
        = some col →
      makeCSVTableDescriptor create = .error (.defaultUnsupported col.name) ∧
      containsStr col.name (errMsg (.defaultUnsupported col.name)) ∧
      ∀ (conv : TableDescriptor → List String → List KV) (p : WParams)
        (files : List (String × List (List String))),
        localPipeline conv p create files = .error (.defaultUnsupported col.name) := by
  intro create col h1 h2 h3 hfind
  have hdesc := makeCSVTableDescriptor_default h1 h2 h3 hfind
  refine ⟨hdesc, colName_in_defaultUnsupported col.name, ?_⟩
  intro conv p files
  unfold localPipeline
  rw [hdesc]

theorem claim_C5_witness :
    makeCSVTableDescriptor ⟨false, false, false, false, [⟨"a", false, some "1"⟩]⟩ =
      .error (.defaultUnsupported "a") ∧
    containsStr "a" (errMsg (.defaultUnsupported "a")) ∧
    ∀ (conv : TableDescriptor → List String → List KV) (p : WParams)
      (files : List (String × List (List String))),
      localPipeline conv p ⟨false, false, false, false, [⟨"a", false, some "1"⟩]⟩ files =
        .error (.defaultUnsupported "a") :=
  claim_C5 ⟨false, false, false, false, [⟨"a", false, some "1"⟩]⟩
    ⟨"a", false, some "1"⟩ rfl rfl rfl (by decide)

/-- C6 (counterexample): a CREATE TABLE whose definitions declare a
foreign key but none of the other unsupported clauses is accepted by
`makeCSVTableDescriptor` — the source leaves foreign keys unchecked
(`TODO(mjibson): error on FKs`, line 255), so no error is surfaced for
them. -/
theorem claim_C6_counterexample :
    makeCSVTableDescriptor ⟨false, false, false, true, [⟨"a", false, none⟩]⟩ =
      .ok ⟨[⟨"a", false, none⟩]⟩ := rfl

/-- C6 (amended): descriptor construction surfaces an error for
IF NOT EXISTS, interleaved tables, and CREATE TABLE AS; foreign keys
are not checked. -/
theorem claim_C6_amended :
    ∀ (create : CreateTable),
      (create.ifNotExists = true →
        makeCSVTableDescriptor create = .error .unsupportedIfNotExists) ∧
      (create.ifNotExists = false → create.interleave = true →
        makeCSVTableDescriptor create = .error .interleavedNotSupported) ∧
      (create.ifNotExists = false → create.interleave = false →
        create.asSource = true →
        makeCSVTableDescriptor create = .error .createAsNotSupported) := by
  intro create
  refine ⟨fun h1 => ?_, fun h1 h2 => ?_, fun h1 h2 h3 => ?_⟩
  · unfold makeCSVTableDescriptor
    rw [if_pos h1]
  · unfold makeCSVTableDescriptor
    rw [if_neg (by simp [h1]), if_pos h2]
  · unfold makeCSVTableDescriptor
    rw [if_neg (by simp [h1]), if_neg (by simp [h2]), if_pos h3]

theorem claim_C6_amended_witness :
    (makeCSVTableDescriptor ⟨true, false, false, false, []⟩ =
      .error .unsupportedIfNotExists) ∧
    (makeCSVTableDescriptor ⟨false, true, false, false, []⟩ =
      .error .interleavedNotSupported) ∧
    (makeCSVTableDescriptor ⟨false, false, true, false, []⟩ =
      .error .createAsNotSupported) :=
  ⟨(claim_C6_amended ⟨true, false, false, false, []⟩).1 rfl,
   (claim_C6_amended ⟨false, true, false, false, []⟩).2.1 rfl rfl,
   (claim_C6_amended ⟨false, false, true, false, []⟩).2.2 rfl rfl rfl⟩

theorem finalize_ok_files_length {tableSpan : Span} {desc d : BackupDescriptor}
    (h : finalizeCSVBackup tableSpan desc = .ok d) :
    d.files.length = desc.files.length := by
  unfold finalizeCSVBackup at h
  split at h
  · cases h
  · cases h
    exact (List.perm_insertionSort fileLE desc.files).length_eq

/-- C7: `makeBackup` writes the `j`-th received segment (0-based) under
the 1-based name `(j+1).sst`, records for it a descriptor entry with
that name and the segment's checksum, and returns a count equal to the
number of segments written, which is the length of the descriptor's
file list. -/
theorem claim_C7 :
    ∀ (chk : List MVCCKeyValue → List Nat) (walltime : Int) (tableSpan : Span)
      (segs : List SstContent),
      (makeBackup chk walltime tableSpan segs).ret = (segs.length : Int) ∧
      (makeBackup chk walltime tableSpan segs).entries.length = segs.length ∧
      (makeBackup chk walltime tableSpan segs).written.length = segs.length ∧
      (∀ d, (makeBackup chk walltime tableSpan segs).descWritten = some d →
        d.files.length = segs.length) ∧
      (∀ (j : Nat) (s : SstContent), segs[j]? = some s →
        (makeBackup chk walltime tableSpan segs).entries[j]? =
          some ⟨sstName (j + 1), s.span, chk s.data⟩ ∧
        (makeBackup chk walltime tableSpan segs).written[j]? =
          some (sstName (j + 1), s.data)) := by
  intro chk walltime tableSpan segs
  have hlen := backupLoop_length chk segs 0
  have hget : ∀ (j : Nat) (s : SstContent), segs[j]? = some s →
      (backupLoop chk 0 segs).1[j]? = some ⟨sstName (j + 1), s.span, chk s.data⟩ ∧
      (backupLoop chk 0 segs).2.1[j]? = some (sstName (j + 1), s.data) := by
    intro j s hs
    have := backupLoop_get chk segs 0 j s hs
    rw [Nat.zero_add] at this
    exact this
  simp only [makeBackup]
  split
  · rename_i d hfin
    refine ⟨by rw [hlen.1], hlen.1, hlen.2, ?_, hget⟩
    intro d2 hd2
    cases hd2
    rw [finalize_ok_files_length hfin]
    exact hlen.1
  · rename_i e hfin
    refine ⟨by rw [hlen.1], hlen.1, hlen.2, ?_, hget⟩
    intro d2 hd2
    cases hd2

theorem claim_C7_witness :
    ∀ (j : Nat) (s : SstContent),
      ([⟨[⟨[1], 7, [8]⟩], 10, ⟨[1], [1, 0]⟩⟩,
        ⟨[⟨[2], 7, [9]⟩], 10, ⟨[2], [2, 0]⟩⟩] : List SstContent)[j]? = some s →
      (makeBackup (fun d => (d.map MVCCKeyValue.key).flatten) 7 ⟨[], [9]⟩
        [⟨[⟨[1], 7, [8]⟩], 10, ⟨[1], [1, 0]⟩⟩,
         ⟨[⟨[2], 7, [9]⟩], 10, ⟨[2], [2, 0]⟩⟩]).entries[j]? =
        some ⟨sstName (j + 1), s.span, (s.data.map MVCCKeyValue.key).flatten⟩ ∧
      (makeBackup (fun d => (d.map MVCCKeyValue.key).flatten) 7 ⟨[], [9]⟩
        [⟨[⟨[1], 7, [8]⟩], 10, ⟨[1], [1, 0]⟩⟩,
         ⟨[⟨[2], 7, [9]⟩], 10, ⟨[2], [2, 0]⟩⟩]).written[j]? =
        some (sstName (j + 1), s.data) :=
  (claim_C7 (fun d => (d.map MVCCKeyValue.key).flatten) 7 ⟨[], [9]⟩
    [⟨[⟨[1], 7, [8]⟩], 10, ⟨[1], [1, 0]⟩⟩,
     ⟨[⟨[2], 7, [9]⟩], 10, ⟨[2], [2, 0]⟩⟩]).2.2.2.2

/-- C8: on a successful `writeRocksDB` run, every entry of every emitted
segment carries the pipeline-wide `walltime` parameter as its MVCC
wall-time — the multi-map input (`KV`) carries no timestamp at all, so
the stamp can only come from the restamping at `sst.Add` time. -/
theorem claim_C8 :
    ∀ (p : WParams) (kvs : List KV) (segs : List SstContent) (cnt : Nat),
      writeRocksDB p kvs = .ok (segs, cnt) →
      ∀ seg ∈ segs, ∀ e ∈ seg.data, e.ts = p.walltime := by
  intro p kvs segs cnt h seg hseg e he
  exact ((writeRocksDB_ok_shape h).1 seg hseg).2.2.2.2 e he

theorem claim_C8_witness :
    writeRocksDB ⟨100, 42⟩ [⟨[2], [9]⟩, ⟨[1], [8]⟩] =
      .ok ([⟨[⟨[1], 42, [8]⟩, ⟨[2], 42, [9]⟩], 20, ⟨[1], [2, 0]⟩⟩], 2) ∧
    ∀ seg ∈ ([⟨[⟨[1], 42, [8]⟩, ⟨[2], 42, [9]⟩], 20, ⟨[1], [2, 0]⟩⟩] :
        List SstContent), ∀ e ∈ seg.data, e.ts = 42 :=
  ⟨rfl, claim_C8 ⟨100, 42⟩ [⟨[2], [9]⟩, ⟨[1], [8]⟩] _ 2 rfl⟩

/-- C9: the sampler admits every KV when `sampleSize` is zero; for a
nonzero `sampleSize` it admits a KV exactly when
`(|key| + |value|) / sampleSize` exceeds the uniform draw for that KV
(so the admission probability is that ratio, clamped to one). -/
theorem claim_C9 :
    ∀ (sampleSize : Int) (draw : ℚ) (kv : KV),
      (sampleSize = 0 → admitKV sampleSize draw kv = true) ∧
      (sampleSize ≠ 0 →
        (admitKV sampleSize draw kv = true ↔
          ((kv.key.length + kv.value.length : Nat) : ℚ) / (sampleSize : ℚ) > draw)) := by
  intro sampleSize draw kv
  constructor
  · intro h
    simp [admitKV, h, sampleAll]
  · intro h
    simp [admitKV, h, sampleRateSample]

theorem claim_C9_witness :
    admitKV 0 (1 / 2) ⟨[1], [2, 3]⟩ = true ∧
    (admitKV 2 (1 / 2) ⟨[1], [2, 3]⟩ = true ↔
      (((⟨[1], [2, 3]⟩ : KV).key.length + (⟨[1], [2, 3]⟩ : KV).value.length : Nat) : ℚ)
        / ((2 : Int) : ℚ) > 1 / 2) :=
  ⟨(claim_C9 0 (1 / 2) ⟨[1], [2, 3]⟩).1 rfl,
   (claim_C9 2 (1 / 2) ⟨[1], [2, 3]⟩).2 (by decide)⟩

/-- C10: the transform-only result row carries the job id, the literal
status `succeeded`, fraction 1, and four zero count fields — it is
entirely independent of the counts the pipeline produced. -/
theorem claim_C10 :
    ∀ (jobID : Int) (counts counts2 : Int × Int × Int),
      (transformOnlyResult jobID counts).rowsWritten = 0 ∧
      (transformOnlyResult jobID counts).indexEntries = 0 ∧
      (transformOnlyResult jobID counts).systemRecords = 0 ∧
      (transformOnlyResult jobID counts).dataBytes = 0 ∧
      (transformOnlyResult jobID counts).status = "succeeded" ∧
      (transformOnlyResult jobID counts).fractionDone = 1 ∧
      (transformOnlyResult jobID counts).jobID = jobID ∧
      transformOnlyResult jobID counts = transformOnlyResult jobID counts2 :=
  fun _ _ _ => ⟨rfl, rfl, rfl, rfl, rfl, rfl, rfl, rfl⟩

end CsvImport
